import Mathlib

/-!
# Field unwarping of EPI images (`src/cmd/mrfieldunwarp.cpp`)

A shallow embedding of the command `mrfieldunwarp`: the functor class `FieldUnwarp`
(constructor, `get_transform`, `get_Ts2r`, `get_Ts2r_avg`, `operator()`) and the
driver `run`.

Modelling conventions.

* `float` / `double` scalars are exact rationals `ℚ`; no rounding is modelled.
* `transform_type` (an invertible affine map of 3-space) is an element of an arbitrary
  group `G`; `*` is composition and `⁻¹` is `.inverse()`.
* Library code that is not part of the command (the exponential map `se3exp`, the action
  of a transform on a point, `.rotation()`, and the two interpolators) is collected in
  the record `Externals`, about which nothing is assumed.
* `size_t` / `ssize_t` values are natural numbers.  The dimensions are those of an opened
  image and the row count is that of a matrix held in memory, so the products and sums
  formed by the code stay far below `2 ^ 64`; wrap-around is therefore not modelled.
* Integer division or remainder by zero has no defined result in C++; the model
  returns `Err.undefined`, respectively `none`, there.  A matrix access outside the
  matrix is treated the same way.  The floating-point quotient `0 / 0` that Eigen forms
  for the mean of an empty block is a value in C++ (a NaN) and raises nothing; the model
  keeps the function total there (with the value `0` of `ℚ`).
-/

namespace MrFieldUnwarp

/-- A point or direction of 3-space. -/
abbrev Vec3 := Fin 3 → ℚ

/-- One row of the phase-encoding table: direction (columns 0 to 2) and readout time. -/
abbrev Vec4 := Fin 4 → ℚ

/-- One row of the motion table: the six rigid tangent parameters. -/
abbrev Vec6 := Fin 6 → ℚ

/-- How a computation can fail: a thrown `Exception` with its message, or an operation
without a defined result (integer division by zero, access outside a matrix). -/
inductive Err where
  | exception (msg : String)
  | undefined
  deriving DecidableEq, Repr

/-- The two affine maps kept by the class `Transform` of an image. -/
structure Transform (G : Type) where
  voxel2scanner : G
  scanner2voxel : G

/-- The part of an `Image<value_type>` the command looks at: the four sizes and the
transform of the header. -/
structure Image (G : Type) where
  size0 : Nat
  size1 : Nat
  size2 : Nat
  size3 : Nat
  transform : Transform G

/-- Library collaborators of the command. `se3exp` is `DWI::SVR::se3exp`, `apply T x` is
`T * x`, `rotation T` is `T.rotation()`, `finterp x` is the value and gradient of the
linear field interpolator at voxel position `x`, and `dinterp v x` is the value of the
cubic data interpolator in volume `v` at voxel position `x`. -/
structure Externals (G : Type) where
  se3exp : Vec6 → G
  apply : G → Vec3 → Vec3
  rotation : G → Matrix (Fin 3) (Fin 3) ℚ
  finterp : Vec3 → ℚ × Vec3
  dinterp : Nat → Vec3 → ℚ

/-- The text of the exception thrown by the constructor of `FieldUnwarp`. -/
def motionMsg : String := "Motion parameters incompatible with data dimensions."

/-- The text of the exception thrown by `run` for an alignment index that is too large. -/
def fidxMsg : String := "field index invalid."

/-- The expression `petable.leftCols<3>()` on one row. -/
def leftCols3 (r : Vec4) : Vec3 := fun i => r (Fin.castSucc i)

/-- The statement `PE.array().colwise() *= petable.col(3).array()`: every entry of row `v`
of `PE` is multiplied by entry 3 of row `v` of `petable`. -/
def scaleColwise (petable : List Vec4) : List Vec3 :=
  petable.map fun r => fun i => leftCols3 r i * r 3

/-- The statement `petable.col(0) *= -1` of `run`. -/
def negateCol0 (petable : List Vec4) : List Vec4 :=
  petable.map fun r => fun j => if j = 0 then r j * (-1) else r j

/-- The expression `m.block(start, 0, n, 6)`: `n` consecutive rows from row `start`;
no result when the block leaves the matrix. -/
def block (m : List Vec6) (start n : Nat) : Option (List Vec6) :=
  if start + n ≤ m.length then some ((m.drop start).take n) else none

/-- The expression `.colwise().mean()`: per column, the sum of the entries divided by the
number of rows. -/
def colwiseMean (blk : List Vec6) : Vec6 :=
  fun j => (blk.map fun r => r j).sum / (blk.length : ℚ)

/-- The members of the class `FieldUnwarp` (the interpolators live in `Externals`). -/
structure FieldUnwarp (G : Type) where
  PE : List Vec3
  motion : List Vec6
  T0 : Transform G
  Tf : G
  nv : Nat
  nz : Nat
  ne : Nat
  nomod : Bool

/-- What the loop body of `operator()` computes for one voxel. -/
structure VoxelRecord where
  vox : Vec3
  pos : Vec3
  jac : ℚ
  value : ℚ

namespace FieldUnwarp

variable {G : Type} [Group G]

/-- The method `get_transform`. -/
def get_transform (ext : Externals G) (p : Vec6) : G := ext.se3exp p

/-- The index expression `v*ne+z%ne` of `get_Ts2r`; no result when `ne = 0`. -/
def rowIndex (self : FieldUnwarp G) (v z : Nat) : Option Nat :=
  if self.ne = 0 then none else some (v * self.ne + z % self.ne)

/-- The expression `motion.row(v*ne+z%ne)` of `get_Ts2r`. -/
def sliceRow (self : FieldUnwarp G) (v z : Nat) : Option Vec6 :=
  match self.rowIndex v z with
  | none => none
  | some i => self.motion[i]?

/-- The method `get_Ts2r`. -/
def get_Ts2r (ext : Externals G) (self : FieldUnwarp G) (v z : Nat) : Option G :=
  match self.sliceRow v z with
  | none => none
  | some p => some (self.T0.scanner2voxel * get_transform ext p * self.T0.voxel2scanner)

/-- The expression `motion.block(v*ne,0,ne,6).colwise().mean()` of `get_Ts2r_avg`. -/
def blockMean (self : FieldUnwarp G) (v : Nat) : Option Vec6 :=
  match block self.motion (v * self.ne) self.ne with
  | none => none
  | some blk => some (colwiseMean blk)

/-- The method `get_Ts2r_avg`. -/
def get_Ts2r_avg (ext : Externals G) (self : FieldUnwarp G) (v : Nat) : Option G :=
  match self.blockMean v with
  | none => none
  | some p => some (self.T0.scanner2voxel * get_transform ext p * self.T0.voxel2scanner)

/-- The constructor `FieldUnwarp::FieldUnwarp`. The initialiser list comes first (it
divides by `nv`), then the scaling of `PE`, the check of the motion table, and the two
assignments to `Tf`. -/
def new (ext : Externals G) (data field : Image G) (petable : List Vec4)
    (motion : List Vec6) (fidx : Int) (nomod : Bool) : Except Err (FieldUnwarp G) :=
  let nv := data.size3
  let nz := data.size2
  if nv = 0 then .error .undefined
  else
    let ne := motion.length / nv
    let PE := scaleColwise petable
    if motion.length = 0 then .error .undefined
    else if (nv * nz) % motion.length ≠ 0 then .error (.exception motionMsg)
    else
      let self : FieldUnwarp G :=
        ⟨PE, motion, data.transform,
          field.transform.scanner2voxel * data.transform.voxel2scanner, nv, nz, ne, nomod⟩
      if 0 ≤ fidx ∧ fidx < (nv : Int) then
        match get_Ts2r_avg ext self fidx.toNat with
        | none => .error .undefined
        | some A => .ok { self with Tf := self.Tf * A⁻¹ }
      else .ok self

/-- The loop `for (auto l = Loop(0,2)(out); l; l++)` of `operator()` over the voxel
positions of one slice. The variable `jac` is declared before the loop, so its value is
carried from one voxel to the next. -/
def voxelLoop (ext : Externals G) (self : FieldUnwarp G) (v : Nat) (Ts2r : G) :
    ℚ → List Vec3 → Option (List VoxelRecord)
  | _, [] => some []
  | jac, vox :: rest =>
    match self.PE[v]? with
    | none => none
    | some pe =>
      let fv := ext.finterp (ext.apply Ts2r vox)
      let B0 := fv.1
      let dB0 := fv.2
      let RdB0 := (ext.rotation Ts2r).transpose.mulVec dB0
      let pos := vox + B0 • pe
      let jacNext := if !self.nomod then 1 + 2 * Matrix.dotProduct pe RdB0 else jac
      match voxelLoop ext self v Ts2r jacNext rest with
      | none => none
      | some out => some (⟨vox, pos, jacNext, jacNext * ext.dinterp v pos⟩ :: out)

/-- The method `operator()` for the slice `z` of volume `v`, over the given voxel
positions of that slice. -/
def operator_call (ext : Externals G) (self : FieldUnwarp G) (v z : Nat)
    (voxels : List Vec3) : Option (List VoxelRecord) :=
  match get_Ts2r ext self v z with
  | none => none
  | some T => voxelLoop ext self v (self.Tf * T) 1 voxels

end FieldUnwarp

/-- The positions `assign_pos_of(out).to(vox)` visited by `Loop(0,2)` in slice `z` of an
image with in-plane sizes `nx` and `ny`. -/
def slicePositions (nx ny z : Nat) : List Vec3 :=
  (List.range ny).flatMap fun (y : Nat) =>
    (List.range nx).map fun (x : Nat) => ![(x : ℚ), (y : ℚ), (z : ℚ)]

/-- The index pairs visited by `ThreadedLoop (..., out, {2, 3})`. -/
def sliceVolumePairs (nz nv : Nat) : List (Nat × Nat) :=
  (List.range nv).flatMap fun v => (List.range nz).map fun z => (v, z)

/-- The call `ThreadedLoop (..., out, {2, 3}).run (func, out)`: the functor is invoked once
for every pair of the list; the pass has a result only if every invocation has one. -/
def threadedLoop (f : Nat × Nat → Option (List VoxelRecord)) :
    List (Nat × Nat) → Option (List (List VoxelRecord))
  | [] => some []
  | vz :: rest =>
    match f vz with
    | none => none
    | some slice =>
      match threadedLoop f rest with
      | none => none
      | some out => some (slice :: out)

/-- What `run` leaves behind: whether the output image was created, the functor if it was
constructed, and the exception or the values written per slice. -/
structure RunResult (G : Type) where
  created : Bool
  func : Option (FieldUnwarp G)
  result : Except Err (List (List VoxelRecord))

/-- The motion matrix of `run`: the file of the option `-motion` if there is one, else
`Eigen::MatrixXd::Zero(data.size(3), 6)`. -/
def run_motion {G : Type} (data : Image G) (motionOpt : Option (List Vec6)) : List Vec6 :=
  match motionOpt with
  | some m => m
  | none => List.replicate data.size3 (fun _ => 0)

/-- The alignment index of `run`: `get_option_value ("fidx", -1)`. -/
def run_fidx (fidxOpt : Option Int) : Int := fidxOpt.getD (-1)

/-- The function `run`, after the images are opened and the files are read: `scheme` is
the phase-encoding table of the data, `motionOpt` the matrix of the option `-motion`,
`fidxOpt` the value of the option `-fidx`, `nomod` the presence of `-nomodulation`. -/
def run {G : Type} [Group G] (ext : Externals G) (data field : Image G)
    (scheme : List Vec4) (motionOpt : Option (List Vec6)) (fidxOpt : Option Int)
    (nomod : Bool) : RunResult G :=
  let petable := negateCol0 scheme
  let motion := run_motion data motionOpt
  let fidx := run_fidx fidxOpt
  if fidx ≥ (data.size3 : Int) then ⟨false, none, .error (.exception fidxMsg)⟩
  else
    match FieldUnwarp.new ext data field petable motion fidx nomod with
    | .error e => ⟨true, none, .error e⟩
    | .ok func =>
      match threadedLoop
          (fun vz => func.operator_call ext vz.1 vz.2
            (slicePositions data.size0 data.size1 vz.2))
          (sliceVolumePairs data.size2 data.size3) with
      | none => ⟨true, some func, .error .undefined⟩
      | some out => ⟨true, some func, .ok out⟩

/-! ## A concrete instance

The transforms are the translations of 3-space, the exponential map keeps the
translation part of the parameters, the field is a ramp of slope `g` along the first
axis, and the data image is a ramp as well. -/

/-- The group of translations of 3-space. -/
abbrev Translation := Multiplicative Vec3

/-- Library collaborators of the concrete instance. -/
def rampExt (g : ℚ) : Externals Translation where
  se3exp p := Multiplicative.ofAdd (fun i => p (Fin.natAdd 3 i))
  apply T x := x + Multiplicative.toAdd T
  rotation _ := 1
  finterp x := (g * x 0, ![g, 0, 0])
  dinterp v x := (v : ℚ) + x 0 + 2 * x 1

/-- An image of the concrete instance with `nz` slices and `nv` volumes of 2 by 2 voxels,
whose voxel and scanner coordinates coincide. -/
def rampImage (nz nv : Nat) : Image Translation := ⟨2, 2, nz, nv, ⟨1, 1⟩⟩

/-- A motion table of `n` rows, row `i` being `(0, 0, 0, i, 0, 0)`. -/
def rampMotion (n : Nat) : List Vec6 :=
  (List.range n).map fun (i : Nat) => ![0, 0, 0, (i : ℚ), 0, 0]

/-! ## Shared lemmas -/

section LoopLemmas

variable {G : Type}

theorem blockMean_eq (self : FieldUnwarp G) (v : Nat) (p : Vec6)
    (h : self.blockMean v = some p) :
    p = colwiseMean ((self.motion.drop (v * self.ne)).take self.ne) := by
  unfold FieldUnwarp.blockMean block at h
  split_ifs at h with hb
  · simpa using h.symm

/-- The loop of `operator()` in closed form: one record per voxel position. -/
theorem voxelLoop_eq (ext : Externals G) (self : FieldUnwarp G) (v : Nat) (Ts2r : G)
    (pe : Vec3) (hpe : self.PE[v]? = some pe) (jac : ℚ) (voxels : List Vec3) :
    FieldUnwarp.voxelLoop ext self v Ts2r jac voxels =
      some (voxels.map fun vox =>
        ⟨vox, vox + (ext.finterp (ext.apply Ts2r vox)).1 • pe,
          if self.nomod then jac
          else 1 + 2 * Matrix.dotProduct pe
            ((ext.rotation Ts2r).transpose.mulVec (ext.finterp (ext.apply Ts2r vox)).2),
          (if self.nomod then jac
           else 1 + 2 * Matrix.dotProduct pe
            ((ext.rotation Ts2r).transpose.mulVec (ext.finterp (ext.apply Ts2r vox)).2)) *
            ext.dinterp v (vox + (ext.finterp (ext.apply Ts2r vox)).1 • pe)⟩) := by
  induction voxels generalizing jac with
  | nil => rfl
  | cons vox rest ih =>
    unfold FieldUnwarp.voxelLoop
    simp only [hpe]
    rw [ih]
    cases hn : self.nomod <;> simp

end LoopLemmas

section Lemmas

variable {G : Type} [Group G]

theorem block_in_range (m : List Vec6) (s n : Nat) (h : s + n ≤ m.length) :
    block m s n = some ((m.drop s).take n) := by
  simp [block, h]

theorem avg_block_bound (rows nv f : Nat) (hf : f < nv) :
    f * (rows / nv) + rows / nv ≤ rows := by
  have h1 : (f + 1) * (rows / nv) ≤ nv * (rows / nv) := Nat.mul_le_mul_right _ hf
  have h2 : nv * (rows / nv) ≤ rows := Nat.mul_div_le rows nv
  have h3 : (f + 1) * (rows / nv) = f * (rows / nv) + rows / nv := by ring
  omega

/-- The value of `Tf` at the end of the constructor. -/
theorem new_accepts (ext : Externals G) (data field : Image G) (petable : List Vec4)
    (motion : List Vec6) (fidx : Int) (nomod : Bool)
    (hnv : data.size3 ≠ 0) (hrows : motion.length ≠ 0)
    (hdiv : (data.size3 * data.size2) % motion.length = 0) :
    FieldUnwarp.new ext data field petable motion fidx nomod =
      .ok ⟨scaleColwise petable, motion, data.transform,
        (if 0 ≤ fidx ∧ fidx < (data.size3 : Int) then
          field.transform.scanner2voxel * data.transform.voxel2scanner *
            (data.transform.scanner2voxel *
              ext.se3exp (colwiseMean
                ((motion.drop (fidx.toNat * (motion.length / data.size3))).take
                  (motion.length / data.size3))) *
              data.transform.voxel2scanner)⁻¹
         else field.transform.scanner2voxel * data.transform.voxel2scanner),
        data.size3, data.size2, motion.length / data.size3, nomod⟩ := by
  unfold FieldUnwarp.new
  simp only [hnv, hrows, hdiv, if_false, ne_eq, not_true_eq_false]
  split_ifs with hf
  · have hlt : fidx.toNat < data.size3 := by omega
    have hb := avg_block_bound motion.length data.size3 fidx.toNat hlt
    simp [FieldUnwarp.get_Ts2r_avg, FieldUnwarp.blockMean, block_in_range _ _ _ hb,
      FieldUnwarp.get_transform]
  · rfl

theorem new_rejects (ext : Externals G) (data field : Image G) (petable : List Vec4)
    (motion : List Vec6) (fidx : Int) (nomod : Bool)
    (hnv : data.size3 ≠ 0) (hrows : motion.length ≠ 0)
    (hdiv : (data.size3 * data.size2) % motion.length ≠ 0) :
    FieldUnwarp.new ext data field petable motion fidx nomod =
      .error (.exception motionMsg) := by
  unfold FieldUnwarp.new
  simp [hnv, hrows, hdiv]

theorem new_ok_inv (ext : Externals G) (data field : Image G) (petable : List Vec4)
    (motion : List Vec6) (fidx : Int) (nomod : Bool) (obj : FieldUnwarp G)
    (h : FieldUnwarp.new ext data field petable motion fidx nomod = .ok obj) :
    data.size3 ≠ 0 ∧ motion.length ≠ 0 ∧ (data.size3 * data.size2) % motion.length = 0 := by
  by_cases hnv : data.size3 = 0
  · simp [FieldUnwarp.new, hnv] at h
  by_cases hrows : motion.length = 0
  · simp [FieldUnwarp.new, hnv, hrows] at h
  by_cases hdiv : (data.size3 * data.size2) % motion.length = 0
  · exact ⟨hnv, hrows, hdiv⟩
  · rw [new_rejects ext data field petable motion fidx nomod hnv hrows hdiv] at h
    cases h

@[simp]
theorem rampMotion_length (n : Nat) : (rampMotion n).length = n := by
  unfold rampMotion
  rw [List.length_map, List.length_range]

theorem run_func (ext : Externals G) (data field : Image G) (scheme : List Vec4)
    (motionOpt : Option (List Vec6)) (fidxOpt : Option Int) (nomod : Bool)
    (obj : FieldUnwarp G) (hf : run_fidx fidxOpt < (data.size3 : Int))
    (hnew : FieldUnwarp.new ext data field (negateCol0 scheme) (run_motion data motionOpt)
      (run_fidx fidxOpt) nomod = .ok obj) :
    (run ext data field scheme motionOpt fidxOpt nomod).func = some obj ∧
    (run ext data field scheme motionOpt fidxOpt nomod).created = true := by
  unfold run
  simp only [ge_iff_le, not_le.mpr hf, if_false, hnew]
  split <;> exact ⟨rfl, rfl⟩

theorem colwiseMean_singleton (r : Vec6) : colwiseMean [r] = r := by
  funext j
  simp [colwiseMean]

theorem new_fields (ext : Externals G) (data field : Image G) (petable : List Vec4)
    (motion : List Vec6) (fidx : Int) (nomod : Bool) (obj : FieldUnwarp G)
    (h : FieldUnwarp.new ext data field petable motion fidx nomod = .ok obj) :
    obj.PE = scaleColwise petable ∧ obj.motion = motion ∧ obj.T0 = data.transform ∧
    obj.nv = data.size3 ∧ obj.nz = data.size2 ∧ obj.ne = motion.length / data.size3 ∧
    obj.nomod = nomod := by
  obtain ⟨hnv, hrows, hdiv⟩ := new_ok_inv ext data field petable motion fidx nomod obj h
  rw [new_accepts ext data field petable motion fidx nomod hnv hrows hdiv] at h
  have hobj := (Except.ok.inj h).symm
  subst hobj
  exact ⟨rfl, rfl, rfl, rfl, rfl, rfl, rfl⟩

theorem run_func_inv (ext : Externals G) (data field : Image G) (scheme : List Vec4)
    (motionOpt : Option (List Vec6)) (fidxOpt : Option Int) (nomod : Bool)
    (obj : FieldUnwarp G)
    (h : (run ext data field scheme motionOpt fidxOpt nomod).func = some obj) :
    FieldUnwarp.new ext data field (negateCol0 scheme) (run_motion data motionOpt)
      (run_fidx fidxOpt) nomod = .ok obj := by
  unfold run at h
  by_cases hf : run_fidx fidxOpt ≥ (data.size3 : Int)
  · simp [hf] at h
  · simp only [hf, if_false] at h
    split at h
    · simp at h
    · rename_i func hnew
      have hfo : func = obj := by
        split at h <;> simpa using h
      rw [← hfo]; exact hnew

theorem motionMsg_ne_fidxMsg : motionMsg ≠ fidxMsg := by decide

end Lemmas

/-! ## The check of the motion table -/

section MotionTable

variable {G : Type} [Group G]

/-- C1 at the input 4 volumes, 21 slices, a motion table of 21 rows: 21 is not a multiple
of 4, yet the check of the constructor passes, since 21 divides 4 * 21. No exception is
raised, an object is constructed with `ne = 21 / 4 = 5`, and for every volume and slice
`get_Ts2r` reads a row below 20, so row 20 of the table is never read. -/
theorem rows_21_volumes_4_accepted :
    1 ≤ (rampImage 21 4).size3 ∧ 1 ≤ (rampImage 21 4).size2 ∧
    ¬ ((rampImage 21 4).size3 ∣ (rampMotion 21).length) ∧
    ((rampImage 21 4).size3 * (rampImage 21 4).size2) % (rampMotion 21).length = 0 ∧
    (∃ obj, FieldUnwarp.new (rampExt 0) (rampImage 21 4) (rampImage 21 1) []
        (rampMotion 21) (-1) false = .ok obj ∧ obj.ne = 5 ∧
      ∀ (v : Fin 4) (z : Nat), ∃ i, obj.rowIndex v z = some i ∧ i < 20) ∧
    FieldUnwarp.new (rampExt 0) (rampImage 21 4) (rampImage 21 1) []
        (rampMotion 21) (-1) false ≠ .error (.exception motionMsg) := by
  have h := new_accepts (rampExt 0) (rampImage 21 4) (rampImage 21 1) []
    (rampMotion 21) (-1) false (by simp [rampImage]) (by simp)
    (by simp [rampImage])
  refine ⟨by simp [rampImage], by simp [rampImage], by simp [rampImage]; decide,
    by simp [rampImage], ?_, ?_⟩
  · refine ⟨_, h, by simp [rampImage], ?_⟩
    intro v z
    refine ⟨v.val * 5 + z % 5, by simp [FieldUnwarp.rowIndex, rampImage], ?_⟩
    have hv := v.isLt
    have hz : z % 5 < 5 := Nat.mod_lt z (by decide)
    omega
  · rw [h]; simp

/-- C2, as stated, fails: with 4 volumes and 3 slices a motion table of 20 = 5 * 4 rows is
rejected by the constructor, since 20 does not divide 4 * 3. -/
theorem rows_20_volumes_4_rejected :
    1 ≤ (rampImage 3 4).size3 ∧ 1 ≤ (rampImage 3 4).size2 ∧
    (rampMotion 20).length = 5 * (rampImage 3 4).size3 ∧
    FieldUnwarp.new (rampExt 0) (rampImage 3 4) (rampImage 3 1) []
        (rampMotion 20) (-1) false = .error (.exception motionMsg) ∧
    ¬ ∃ obj, FieldUnwarp.new (rampExt 0) (rampImage 3 4) (rampImage 3 1) []
        (rampMotion 20) (-1) false = .ok obj := by
  have h := new_rejects (rampExt 0) (rampImage 3 4) (rampImage 3 1) [] (rampMotion 20) (-1)
    false (by simp [rampImage]) (by simp) (by simp [rampImage])
  refine ⟨by simp [rampImage], by simp [rampImage], by simp [rampImage], h, ?_⟩
  rintro ⟨obj, hobj⟩
  rw [h] at hobj
  cases hobj

/-- C2 (amended): for `nv ≥ 1` and `k ≥ 1`, a motion table with `k * nv` rows is accepted
by the constructor exactly when `k` divides the number of slices `nz`: if it does, an
object is constructed and its `ne` is `k`; if it does not, the constructor raises
"Motion parameters incompatible with data dimensions.". In particular 20 rows with
`nv = 4` are accepted, with `ne = 5`, when 5 divides `nz`. -/
theorem rows_multiple_accepted_iff (ext : Externals G) (data field : Image G)
    (petable : List Vec4) (motion : List Vec6) (fidx : Int) (nomod : Bool) (k : Nat)
    (hnv : 1 ≤ data.size3) (hk : 1 ≤ k) (hrows : motion.length = k * data.size3) :
    (k ∣ data.size2 →
      ∃ obj, FieldUnwarp.new ext data field petable motion fidx nomod = .ok obj ∧
        obj.ne = k) ∧
    (¬ k ∣ data.size2 →
      FieldUnwarp.new ext data field petable motion fidx nomod
          = .error (.exception motionMsg)) ∧
    (motion.length = 20 → data.size3 = 4 → 5 ∣ data.size2 →
      ∃ obj, FieldUnwarp.new ext data field petable motion fidx nomod = .ok obj ∧
        obj.ne = 5) := by
  have hnv0 : data.size3 ≠ 0 := by omega
  have hpos : 0 < data.size3 := by omega
  have hrows0 : motion.length ≠ 0 := by
    rw [hrows]; exact Nat.mul_ne_zero (by omega) hnv0
  have hiff : (data.size3 * data.size2) % motion.length = 0 ↔ k ∣ data.size2 := by
    rw [hrows, Nat.mul_comm k, ← Nat.dvd_iff_mod_eq_zero]
    exact Nat.mul_dvd_mul_iff_left hpos
  have hne : motion.length / data.size3 = k := by
    rw [hrows]; exact Nat.mul_div_cancel k hpos
  have acc : k ∣ data.size2 →
      ∃ obj, FieldUnwarp.new ext data field petable motion fidx nomod = .ok obj ∧
        obj.ne = k := by
    intro hd
    exact ⟨_, new_accepts ext data field petable motion fidx nomod hnv0 hrows0
      (hiff.mpr hd), hne⟩
  refine ⟨acc, ?_, ?_⟩
  · intro hd
    exact new_rejects ext data field petable motion fidx nomod hnv0 hrows0
      (fun h => hd (hiff.mp h))
  · intro h20 h4 h5
    have hk5 : k = 5 := by
      rw [h20, h4] at hrows; omega
    rw [hk5] at acc
    exact acc h5

/-- Witness of `rows_multiple_accepted_iff`: 4 volumes, 10 slices, 20 rows. -/
theorem rows_multiple_accepted_iff_witness :
    ∃ obj, FieldUnwarp.new (rampExt 0) (rampImage 10 4) (rampImage 10 1) []
        (rampMotion 20) (-1) false = .ok obj ∧ obj.ne = 5 :=
  (rows_multiple_accepted_iff (rampExt 0) (rampImage 10 4) (rampImage 10 1) []
    (rampMotion 20) (-1) false 5 (by simp [rampImage]) (by decide)
    (by simp [rampImage])).1 (by simp [rampImage]; decide)

/-- C10 at the input 4 volumes, 2 slices, a motion table of 2 rows: the numbers satisfy
the check of the constructor, the object is constructed, but `ne = 2 / 4 = 0`, so the
remainder `z % ne` of `get_Ts2r` has no defined result for any slice. -/
theorem two_rows_four_volumes_ne_zero (ext : Externals G) (nx ny : Nat) (T0 : Transform G)
    (field : Image G) (petable : List Vec4) (r0 r1 : Vec6) (fidx : Int) (nomod : Bool) :
    1 ≤ 4 ∧ 1 ≤ 2 ∧ 1 ≤ [r0, r1].length ∧ (4 * 2) % [r0, r1].length = 0 ∧
    ∃ obj, FieldUnwarp.new ext ⟨nx, ny, 2, 4, T0⟩ field petable [r0, r1] fidx nomod
        = .ok obj ∧
      obj.ne = 0 ∧ ¬ 1 ≤ obj.ne ∧
      ∀ v z, obj.rowIndex v z = none ∧ FieldUnwarp.get_Ts2r ext obj v z = none := by
  refine ⟨by decide, by decide, by simp, by simp, _,
    new_accepts ext ⟨nx, ny, 2, 4, T0⟩ field petable [r0, r1] fidx nomod
      (by simp) (by simp) (by simp), by simp, by simp, ?_⟩
  intro v z
  simp [FieldUnwarp.rowIndex, FieldUnwarp.get_Ts2r, FieldUnwarp.sliceRow]

/-- C9: in an object whose `ne` is `rows / nv`, with `rows = k * nv` and `k ≥ 1`, the
method `get_Ts2r (v, z)` for a volume `v < nv` reads motion row `v * k + z % k`; that index
lies in `[v * k, (v + 1) * k)`, the block of volume `v`, and below `rows`; the transform is
`scanner2voxel * se3exp (row) * voxel2scanner`; and two slices with the same remainder
modulo `k` get the same transform. -/
theorem get_Ts2r_reads_block_row (ext : Externals G) (self : FieldUnwarp G) (k v z : Nat)
    (hne : self.ne = self.motion.length / self.nv)
    (hrows : self.motion.length = k * self.nv) (hk : 1 ≤ k) (hv : v < self.nv) :
    self.ne = k ∧
    self.rowIndex v z = some (v * k + z % k) ∧
    v * k ≤ v * k + z % k ∧ v * k + z % k < (v + 1) * k ∧
    v * k + z % k < self.motion.length ∧
    (∃ p, self.motion[v * k + z % k]? = some p ∧
      FieldUnwarp.get_Ts2r ext self v z =
        some (self.T0.scanner2voxel * ext.se3exp p * self.T0.voxel2scanner)) ∧
    ∀ z2, z % k = z2 % k →
      FieldUnwarp.get_Ts2r ext self v z = FieldUnwarp.get_Ts2r ext self v z2 := by
  have hnek : self.ne = k := by
    rw [hne, hrows]; exact Nat.mul_div_cancel k (by omega)
  have hk0 : k ≠ 0 := by omega
  have hmod : z % k < k := Nat.mod_lt z (by omega)
  have hblock : v * k + z % k < (v + 1) * k := by
    have : (v + 1) * k = v * k + k := by ring
    omega
  have hlt : v * k + z % k < self.motion.length := by
    have h1 : (v + 1) * k ≤ self.nv * k := Nat.mul_le_mul_right k hv
    have h2 : self.nv * k = k * self.nv := Nat.mul_comm _ _
    omega
  have hidx : ∀ w, self.rowIndex v w = some (v * k + w % k) := by
    intro w
    simp [FieldUnwarp.rowIndex, hnek, hk0]
  refine ⟨hnek, hidx z, Nat.le_add_right _ _, hblock, hlt, ?_, ?_⟩
  · refine ⟨self.motion[v * k + z % k], List.getElem?_eq_getElem hlt, ?_⟩
    simp [FieldUnwarp.get_Ts2r, FieldUnwarp.sliceRow, hidx z, List.getElem?_eq_getElem hlt,
      FieldUnwarp.get_transform]
  · intro z2 hz
    simp [FieldUnwarp.get_Ts2r, FieldUnwarp.sliceRow, hidx z, hidx z2, hz]

/-- Witness of `get_Ts2r_reads_block_row`: 4 volumes, 20 rows, `ne = 5`, volume 2, slice 7
reads row 12. -/
theorem get_Ts2r_reads_block_row_witness :
    FieldUnwarp.rowIndex
      (⟨[], rampMotion 20, ⟨1, 1⟩, 1, 4, 10, 5, false⟩ : FieldUnwarp Translation) 2 7
      = some (2 * 5 + 7 % 5) :=
  (get_Ts2r_reads_block_row (rampExt 0)
    (⟨[], rampMotion 20, ⟨1, 1⟩, 1, 4, 10, 5, false⟩ : FieldUnwarp Translation) 5 2 7
    (by simp) (by simp) (by decide) (by decide)).2.1

end MotionTable

/-! ## The transform chain -/

section TransformChain

variable {G : Type} [Group G]

/-- C3: for `nv ≥ 1`, `run` ends with the exception "field index invalid." exactly when
`fidx ≥ nv`, and then neither the output image is created nor the functor constructed.
When `fidx` is absent (then it is `-1`) or negative and the motion table passes the check
of the constructor, the functor has `Tf = FieldScannerToVoxel * DataVoxelToScanner`; when
`0 ≤ fidx < nv` and the table passes, `Tf` is that product times the inverse of
`get_Ts2r_avg (fidx)`. -/
theorem fidx_handling (ext : Externals G) (data field : Image G) (scheme : List Vec4)
    (motionOpt : Option (List Vec6)) (fidxOpt : Option Int) (nomod : Bool)
    (hnv : 1 ≤ data.size3) :
    ((run ext data field scheme motionOpt fidxOpt nomod).result
        = .error (.exception fidxMsg) ↔ (data.size3 : Int) ≤ run_fidx fidxOpt) ∧
    ((data.size3 : Int) ≤ run_fidx fidxOpt →
      (run ext data field scheme motionOpt fidxOpt nomod).created = false ∧
      (run ext data field scheme motionOpt fidxOpt nomod).func = none) ∧
    (run_fidx none = -1) ∧
    (run_fidx fidxOpt < 0 → (run_motion data motionOpt).length ≠ 0 →
      (data.size3 * data.size2) % (run_motion data motionOpt).length = 0 →
      ∃ obj, (run ext data field scheme motionOpt fidxOpt nomod).func = some obj ∧
        obj.Tf = field.transform.scanner2voxel * data.transform.voxel2scanner) ∧
    (0 ≤ run_fidx fidxOpt → run_fidx fidxOpt < (data.size3 : Int) →
      (run_motion data motionOpt).length ≠ 0 →
      (data.size3 * data.size2) % (run_motion data motionOpt).length = 0 →
      ∃ obj A, (run ext data field scheme motionOpt fidxOpt nomod).func = some obj ∧
        FieldUnwarp.get_Ts2r_avg ext obj (run_fidx fidxOpt).toNat = some A ∧
        obj.Tf = field.transform.scanner2voxel * data.transform.voxel2scanner * A⁻¹) := by
  have hnv0 : data.size3 ≠ 0 := by omega
  refine ⟨⟨?_, ?_⟩, ?_, rfl, ?_, ?_⟩
  · intro h
    by_contra hlt
    unfold run at h
    simp only [ge_iff_le, hlt, if_false] at h
    split at h
    · rename_i e he
      simp only [Except.error.injEq] at h
      subst h
      by_cases hrows : (run_motion data motionOpt).length = 0
      · simp [FieldUnwarp.new, hnv0, hrows] at he
      · by_cases hdiv : (data.size3 * data.size2) % (run_motion data motionOpt).length = 0
        · rw [new_accepts _ _ _ _ _ _ _ hnv0 hrows hdiv] at he
          cases he
        · rw [new_rejects _ _ _ _ _ _ _ hnv0 hrows hdiv] at he
          simp only [Except.error.injEq, Err.exception.injEq] at he
          exact motionMsg_ne_fidxMsg he
    · split at h <;> simp at h
  · intro h
    unfold run
    simp [h]
  · intro h
    unfold run
    simp [h]
  · intro hneg hrows hdiv
    have hlt : run_fidx fidxOpt < (data.size3 : Int) := by omega
    have hnew := new_accepts ext data field (negateCol0 scheme) (run_motion data motionOpt)
      (run_fidx fidxOpt) nomod hnv0 hrows hdiv
    refine ⟨_, (run_func ext data field scheme motionOpt fidxOpt nomod _ hlt hnew).1, ?_⟩
    have : ¬ (0 ≤ run_fidx fidxOpt ∧ run_fidx fidxOpt < (data.size3 : Int)) := by omega
    simp only [this, if_false]
  · intro h0 hlt hrows hdiv
    have hnew := new_accepts ext data field (negateCol0 scheme) (run_motion data motionOpt)
      (run_fidx fidxOpt) nomod hnv0 hrows hdiv
    have hf : (run_fidx fidxOpt).toNat < data.size3 := by omega
    have hb := avg_block_bound (run_motion data motionOpt).length data.size3 _ hf
    refine ⟨_, data.transform.scanner2voxel *
        ext.se3exp (colwiseMean
          (((run_motion data motionOpt).drop ((run_fidx fidxOpt).toNat *
            ((run_motion data motionOpt).length / data.size3))).take
              ((run_motion data motionOpt).length / data.size3))) *
        data.transform.voxel2scanner,
      (run_func ext data field scheme motionOpt fidxOpt nomod _ hlt hnew).1, ?_, ?_⟩
    · simp only [FieldUnwarp.get_Ts2r_avg, FieldUnwarp.blockMean, block_in_range _ _ _ hb,
        FieldUnwarp.get_transform]
    · simp only [h0, hlt, and_self, if_true]

/-- Witness of `fidx_handling`: 4 volumes and the alignment index 4. -/
theorem fidx_handling_witness :
    (run (rampExt 0) (rampImage 10 4) (rampImage 10 1) [] none (some 4) false).result
      = .error (.exception fidxMsg) :=
  (fidx_handling (rampExt 0) (rampImage 10 4) (rampImage 10 1) [] none (some 4) false
    (by simp [rampImage])).1.mpr (by simp [rampImage, run_fidx])

/-- C7: let the constructor accept the motion table and let `0 ≤ fidx < nv`. For every
slice `z` whose motion row `fidx * ne + z % ne` equals the column-wise mean of the rows
`fidx * ne .. fidx * ne + ne - 1`, the transform `get_Ts2r (fidx, z)` is defined and
`Tf * get_Ts2r (fidx, z) = FieldScannerToVoxel * DataVoxelToScanner`. When `ne = 1` this
holds for every slice. -/
theorem alignment_reference_cancels (ext : Externals G) (data field : Image G)
    (petable : List Vec4) (motion : List Vec6) (fidx : Int) (nomod : Bool)
    (obj : FieldUnwarp G)
    (hnew : FieldUnwarp.new ext data field petable motion fidx nomod = .ok obj)
    (h0 : 0 ≤ fidx) (h1 : fidx < (data.size3 : Int)) :
    (∀ z p, obj.sliceRow fidx.toNat z = some p → obj.blockMean fidx.toNat = some p →
      ∃ T, FieldUnwarp.get_Ts2r ext obj fidx.toNat z = some T ∧
        obj.Tf * T = field.transform.scanner2voxel * data.transform.voxel2scanner) ∧
    (obj.ne = 1 → ∀ z,
      ∃ T, FieldUnwarp.get_Ts2r ext obj fidx.toNat z = some T ∧
        obj.Tf * T = field.transform.scanner2voxel * data.transform.voxel2scanner) := by
  obtain ⟨hnv, hrows, hdiv⟩ := new_ok_inv ext data field petable motion fidx nomod obj hnew
  rw [new_accepts ext data field petable motion fidx nomod hnv hrows hdiv] at hnew
  have hobj := (Except.ok.inj hnew).symm
  have main : ∀ z p, obj.sliceRow fidx.toNat z = some p →
      obj.blockMean fidx.toNat = some p →
      ∃ T, FieldUnwarp.get_Ts2r ext obj fidx.toNat z = some T ∧
        obj.Tf * T = field.transform.scanner2voxel * data.transform.voxel2scanner := by
    intro z p hrow hmean
    have hp := blockMean_eq obj fidx.toNat p hmean
    refine ⟨obj.T0.scanner2voxel * ext.se3exp p * obj.T0.voxel2scanner, ?_, ?_⟩
    · simp [FieldUnwarp.get_Ts2r, hrow, FieldUnwarp.get_transform]
    · rw [hp, hobj]
      simp only [h0, h1, and_self, if_true]
      exact inv_mul_cancel_right _ _
  refine ⟨main, ?_⟩
  intro hne z
  have hmotion : obj.motion = motion := by rw [hobj]
  have hne1 : motion.length / data.size3 = 1 := by
    have : obj.ne = motion.length / data.size3 := by rw [hobj]
    omega
  have hf : fidx.toNat < data.size3 := by omega
  have hge : data.size3 ≤ motion.length := by
    by_contra hlt
    rw [Nat.div_eq_of_lt (by omega)] at hne1
    omega
  have hlt : fidx.toNat < obj.motion.length := by rw [hmotion]; omega
  apply main z (obj.motion[fidx.toNat])
  · simp [FieldUnwarp.sliceRow, FieldUnwarp.rowIndex, hne, Nat.mod_one,
      List.getElem?_eq_getElem hlt]
  · simp only [FieldUnwarp.blockMean, hne, Nat.mul_one]
    rw [block_in_range _ _ _ (by omega), List.drop_eq_getElem_cons hlt, List.take_succ_cons,
      List.take_zero]
    simp only [colwiseMean_singleton]

/-- Witness of `alignment_reference_cancels`: 4 volumes, 10 slices, one motion row per
volume, alignment index 2, slice 7. -/
theorem alignment_reference_cancels_witness :
    ∃ obj T, FieldUnwarp.new (rampExt 0) (rampImage 10 4) (rampImage 10 1) []
        (rampMotion 4) 2 false = .ok obj ∧
      FieldUnwarp.get_Ts2r (rampExt 0) obj (Int.toNat 2) 7 = some T ∧
      obj.Tf * T = (rampImage 10 1).transform.scanner2voxel *
        (rampImage 10 4).transform.voxel2scanner := by
  have h := new_accepts (rampExt 0) (rampImage 10 4) (rampImage 10 1) [] (rampMotion 4) 2
    false (by simp [rampImage]) (by simp) (by simp [rampImage])
  obtain ⟨T, hT, hTf⟩ := (alignment_reference_cancels (rampExt 0) (rampImage 10 4)
    (rampImage 10 1) [] (rampMotion 4) 2 false _ h (by decide) (by simp [rampImage])).2
    (by simp [rampImage]) 7
  exact ⟨_, T, h, hT, hTf⟩

/-- C8: without a motion file `run` builds the all-zero table of `nv` rows; for `nv ≥ 1`
the constructor accepts it with `ne = 1`. Without `fidx` the functor has
`Tf = FieldScannerToVoxel * DataVoxelToScanner`, and `get_Ts2r (v, z)` is the same
transform `scanner2voxel * se3exp (0) * voxel2scanner` for every volume `v < nv` and every
slice `z`, so `Tf * get_Ts2r (v, z)` is the same for all of them. If `se3exp (0)` is the
identity and `scanner2voxel` is the inverse of `voxel2scanner`, that product equals
`FieldScannerToVoxel * DataVoxelToScanner`. -/
theorem zero_motion_no_alignment (ext : Externals G) (data field : Image G)
    (scheme : List Vec4) (nomod : Bool) (hnv : 1 ≤ data.size3) :
    run_motion data none = List.replicate data.size3 0 ∧
    ∃ obj, (run ext data field scheme none none nomod).func = some obj ∧
      FieldUnwarp.new ext data field (negateCol0 scheme) (run_motion data none)
        (run_fidx none) nomod = .ok obj ∧
      obj.ne = 1 ∧
      obj.Tf = field.transform.scanner2voxel * data.transform.voxel2scanner ∧
      (∀ v z, v < data.size3 →
        FieldUnwarp.get_Ts2r ext obj v z =
          some (data.transform.scanner2voxel * ext.se3exp 0 * data.transform.voxel2scanner)) ∧
      (ext.se3exp 0 = 1 → data.transform.scanner2voxel = data.transform.voxel2scanner⁻¹ →
        ∀ v z, v < data.size3 →
          ∃ T, FieldUnwarp.get_Ts2r ext obj v z = some T ∧
            obj.Tf * T = field.transform.scanner2voxel * data.transform.voxel2scanner) := by
  have hnv0 : data.size3 ≠ 0 := by omega
  have hlen : (run_motion data (none : Option (List Vec6))).length = data.size3 := by
    simp [run_motion]
  have hrows : (run_motion data (none : Option (List Vec6))).length ≠ 0 := by
    rw [hlen]; exact hnv0
  have hdiv : (data.size3 * data.size2) %
      (run_motion data (none : Option (List Vec6))).length = 0 := by
    rw [hlen]; exact Nat.mul_mod_right _ _
  have hnew := new_accepts ext data field (negateCol0 scheme) (run_motion data none)
    (run_fidx none) nomod hnv0 hrows hdiv
  have hlt : run_fidx none < (data.size3 : Int) := by
    simp only [run_fidx, Option.getD_none]; omega
  have hget : ∀ v z, v < data.size3 →
      FieldUnwarp.get_Ts2r ext
        (⟨scaleColwise (negateCol0 scheme), run_motion data none, data.transform,
          field.transform.scanner2voxel * data.transform.voxel2scanner,
          data.size3, data.size2, 1, nomod⟩ : FieldUnwarp G) v z =
        some (data.transform.scanner2voxel * ext.se3exp 0 * data.transform.voxel2scanner) := by
    intro v z hv
    have hrow : (run_motion data (none : Option (List Vec6)))[v]? = some (0 : Vec6) := by
      simp only [run_motion]
      rw [List.getElem?_replicate]
      simp only [hv, if_true]
      rfl
    simp [FieldUnwarp.get_Ts2r, FieldUnwarp.sliceRow, FieldUnwarp.rowIndex, Nat.mod_one,
      hrow, FieldUnwarp.get_transform]
  have hneg : ¬ (0 ≤ run_fidx none ∧ run_fidx none < (data.size3 : Int)) := by
    simp [run_fidx]
  have hne : (run_motion data (none : Option (List Vec6))).length / data.size3 = 1 := by
    rw [hlen]; exact Nat.div_self (by omega)
  simp only [hneg, if_false, hne] at hnew
  refine ⟨rfl, _, (run_func ext data field scheme none none nomod _ hlt hnew).1, hnew, rfl,
    rfl, hget, ?_⟩
  intro he hs v z hv
  refine ⟨_, hget v z hv, ?_⟩
  simp only [he, hs, mul_one, inv_mul_cancel, mul_assoc, mul_inv_cancel]

/-- Witness of `zero_motion_no_alignment`: 4 volumes and 10 slices. -/
theorem zero_motion_no_alignment_witness :
    ∃ obj, (run (rampExt 0) (rampImage 10 4) (rampImage 10 1) [] none none false).func
        = some obj ∧ obj.ne = 1 ∧
      obj.Tf = (rampImage 10 1).transform.scanner2voxel *
        (rampImage 10 4).transform.voxel2scanner := by
  obtain ⟨obj, hfunc, _, hne, hTf, _⟩ :=
    (zero_motion_no_alignment (rampExt 0) (rampImage 10 4) (rampImage 10 1) [] false
      (by simp [rampImage])).2
  exact ⟨obj, hfunc, hne, hTf⟩

end TransformChain

/-! ## Resampling and intensity modulation -/

section Resampling

variable {G : Type} [Group G]

/-- C4: when the slice transform `get_Ts2r (v, z)` and the row `PE[v]` exist, `operator()`
writes one value per voxel. With `nomod` set the recorded factor `jac` is 1 at every voxel
and the value is the sampled intensity `s` itself; without it the factor is
`1 + 2 * (PE[v] . RdB0)` and the value is that factor times `s`. The factor is not
clamped: in the concrete instance every rational number occurs as a factor. -/
theorem jacobian_toggle (ext : Externals G) (self : FieldUnwarp G) (v z : Nat) (T : G)
    (pe : Vec3) (voxels : List Vec3)
    (hT : FieldUnwarp.get_Ts2r ext self v z = some T) (hpe : self.PE[v]? = some pe) :
    (self.nomod = true →
      FieldUnwarp.operator_call ext self v z voxels =
        some (voxels.map fun vox =>
          ⟨vox, vox + (ext.finterp (ext.apply (self.Tf * T) vox)).1 • pe, 1,
            ext.dinterp v (vox + (ext.finterp (ext.apply (self.Tf * T) vox)).1 • pe)⟩)) ∧
    (self.nomod = false →
      FieldUnwarp.operator_call ext self v z voxels =
        some (voxels.map fun vox =>
          ⟨vox, vox + (ext.finterp (ext.apply (self.Tf * T) vox)).1 • pe,
            1 + 2 * Matrix.dotProduct pe
              ((ext.rotation (self.Tf * T)).transpose.mulVec
                (ext.finterp (ext.apply (self.Tf * T) vox)).2),
            (1 + 2 * Matrix.dotProduct pe
              ((ext.rotation (self.Tf * T)).transpose.mulVec
                (ext.finterp (ext.apply (self.Tf * T) vox)).2)) *
              ext.dinterp v (vox + (ext.finterp (ext.apply (self.Tf * T) vox)).1 • pe)⟩)) ∧
    (∀ q : ℚ, ∃ r : VoxelRecord,
      FieldUnwarp.operator_call (rampExt ((q - 1) / 2))
        (⟨[![1, 0, 0]], rampMotion 1, ⟨1, 1⟩, 1, 1, 1, 1, false⟩ : FieldUnwarp Translation)
        0 0 [0] = some [r] ∧
      r.jac = q ∧ r.value = q * (rampExt ((q - 1) / 2)).dinterp 0 r.pos) := by
  refine ⟨?_, ?_, ?_⟩
  · intro hn
    simp only [FieldUnwarp.operator_call, hT]
    rw [voxelLoop_eq ext self v (self.Tf * T) pe hpe]
    simp [hn]
  · intro hn
    simp only [FieldUnwarp.operator_call, hT]
    rw [voxelLoop_eq ext self v (self.Tf * T) pe hpe]
    simp [hn]
  · intro q
    have hrow : FieldUnwarp.get_Ts2r (rampExt ((q - 1) / 2))
        (⟨[![1, 0, 0]], rampMotion 1, ⟨1, 1⟩, 1, 1, 1, 1, false⟩ : FieldUnwarp Translation)
        0 0 = some ((1 : Translation) *
          (rampExt ((q - 1) / 2)).se3exp ![0, 0, 0, ((0 : Nat) : ℚ), 0, 0] * 1) := by
      simp [FieldUnwarp.get_Ts2r, FieldUnwarp.sliceRow, FieldUnwarp.rowIndex, rampMotion,
        FieldUnwarp.get_transform]
    simp only [FieldUnwarp.operator_call, hrow]
    rw [voxelLoop_eq _ _ 0 _ ![1, 0, 0] (by simp)]
    have hj : 1 + 2 * Matrix.dotProduct (![1, 0, 0] : Vec3)
        ((1 : Matrix (Fin 3) (Fin 3) ℚ).transpose.mulVec ![(q - 1) / 2, 0, 0]) = q := by
      simp [Matrix.dotProduct, Fin.sum_univ_three]
      ring
    refine ⟨_, rfl, ?_, ?_⟩
    · simpa [rampExt] using hj
    · simp only [List.map_cons, List.map_nil, Bool.false_eq_true, if_false]
      congr 1

/-- Witness of `jacobian_toggle`: the concrete instance with field slope 3, phase-encoding
direction `(1, 0, 0)` and modulation enabled. -/
theorem jacobian_toggle_witness :
    ∃ out, FieldUnwarp.operator_call (rampExt 3)
        (⟨[![1, 0, 0]], [0], ⟨1, 1⟩, 1, 1, 1, 1, false⟩ : FieldUnwarp Translation)
        0 0 [0] = some out :=
  ⟨_, (jacobian_toggle (rampExt 3)
    (⟨[![1, 0, 0]], [0], ⟨1, 1⟩, 1, 1, 1, 1, false⟩ : FieldUnwarp Translation) 0 0
    ((1 : Translation) * (rampExt 3).se3exp 0 * 1) ![1, 0, 0] [0]
    (by simp [FieldUnwarp.get_Ts2r, FieldUnwarp.sliceRow, FieldUnwarp.rowIndex,
      FieldUnwarp.get_transform])
    (by simp)).2.1 rfl⟩

/-- Identity field, where the slice transform exists: if the field interpolator returns
the value 0 and the zero gradient everywhere, and `get_Ts2r (v, z)` and `PE[v]` exist, then
for either modulation setting every voxel has `pos = vox`, `jac = 1`, and the value of the
cubic interpolator at `vox`. -/
theorem identity_field_copy (ext : Externals G) (self : FieldUnwarp G) (v z : Nat) (T : G)
    (pe : Vec3) (voxels : List Vec3) (hzero : ∀ x, ext.finterp x = (0, 0))
    (hT : FieldUnwarp.get_Ts2r ext self v z = some T) (hpe : self.PE[v]? = some pe) :
    FieldUnwarp.operator_call ext self v z voxels =
      some (voxels.map fun vox => ⟨vox, vox, 1, ext.dinterp v vox⟩) := by
  simp only [FieldUnwarp.operator_call, hT]
  rw [voxelLoop_eq ext self v (self.Tf * T) pe hpe]
  simp [hzero]

/-- C5 at the input 4 volumes, 2 slices, a motion table of 2 rows, field uniformly zero:
the constructor accepts the table, yet `operator()` has no result for any volume and
slice, because `get_Ts2r` takes a remainder by `ne = 0`; `run` writes no values. -/
theorem identity_field_two_rows_no_output (ext : Externals G) (nx ny : Nat)
    (T0 : Transform G) (field : Image G) (scheme : List Vec4) (r0 r1 : Vec6)
    (nomod : Bool) :
    (∀ x, ({ ext with finterp := fun _ => (0, 0) } : Externals G).finterp x = (0, 0)) ∧
    (∃ obj, FieldUnwarp.new { ext with finterp := fun _ => (0, 0) } ⟨nx, ny, 2, 4, T0⟩
        field (negateCol0 scheme) [r0, r1] (-1) nomod = .ok obj ∧
      ∀ v z voxels,
        FieldUnwarp.operator_call { ext with finterp := fun _ => (0, 0) } obj v z voxels
          = none) ∧
    (run { ext with finterp := fun _ => (0, 0) } ⟨nx, ny, 2, 4, T0⟩ field scheme
      (some [r0, r1]) none nomod).result = .error .undefined := by
  have hnew := new_accepts { ext with finterp := fun _ => (0, 0) } ⟨nx, ny, 2, 4, T0⟩
    field (negateCol0 scheme) [r0, r1] (-1) nomod (by simp) (by simp) (by simp)
  refine ⟨fun _ => rfl, ⟨_, hnew, ?_⟩, ?_⟩
  · intro v z voxels
    simp [FieldUnwarp.operator_call, FieldUnwarp.get_Ts2r, FieldUnwarp.sliceRow,
      FieldUnwarp.rowIndex]
  · unfold run
    have hf : ¬ run_fidx none ≥ ((4 : Nat) : Int) := by simp [run_fidx]
    simp only [hf, if_false, run_motion]
    have hnew2 : FieldUnwarp.new { ext with finterp := fun _ => (0, 0) } ⟨nx, ny, 2, 4, T0⟩
        field (negateCol0 scheme) [r0, r1] (run_fidx none) nomod = _ := hnew
    rw [hnew2]
    simp [sliceVolumePairs, List.range_succ, threadedLoop, FieldUnwarp.operator_call,
      FieldUnwarp.get_Ts2r, FieldUnwarp.sliceRow, FieldUnwarp.rowIndex]

/-- C6: for a row `r = (p0, p1, p2, t)` of the imported phase-encoding table at volume `v`,
the row `PE[v]` after the sign flip of `run` and the scaling of the constructor is
`t * (-p0, p1, p2)`; any functor constructed by `run` holds that row, and its loop uses it
in the displacement `pos = vox + B0 * PE[v]` and in the factor `1 + 2 * (PE[v] . RdB0)`.
The row `(1, 0, 0, t)` gives `(-t, 0, 0)`. -/
theorem pe_sign_convention (ext : Externals G) (data field : Image G) (scheme : List Vec4)
    (motionOpt : Option (List Vec6)) (fidxOpt : Option Int) (nomod : Bool) (v : Nat)
    (r : Vec4) (hr : scheme[v]? = some r) :
    (scaleColwise (negateCol0 scheme))[v]? = some ![r 3 * -(r 0), r 3 * r 1, r 3 * r 2] ∧
    (∀ obj, (run ext data field scheme motionOpt fidxOpt nomod).func = some obj →
      obj.PE[v]? = some ![r 3 * -(r 0), r 3 * r 1, r 3 * r 2] ∧
      ∀ (Ts2r : G) (jac : ℚ) (voxels : List Vec3),
        FieldUnwarp.voxelLoop ext obj v Ts2r jac voxels =
          some (voxels.map fun vox =>
            ⟨vox,
              vox + (ext.finterp (ext.apply Ts2r vox)).1 •
                ![r 3 * -(r 0), r 3 * r 1, r 3 * r 2],
              if obj.nomod then jac
              else 1 + 2 * Matrix.dotProduct ![r 3 * -(r 0), r 3 * r 1, r 3 * r 2]
                ((ext.rotation Ts2r).transpose.mulVec (ext.finterp (ext.apply Ts2r vox)).2),
              (if obj.nomod then jac
               else 1 + 2 * Matrix.dotProduct ![r 3 * -(r 0), r 3 * r 1, r 3 * r 2]
                ((ext.rotation Ts2r).transpose.mulVec
                  (ext.finterp (ext.apply Ts2r vox)).2)) *
                ext.dinterp v (vox + (ext.finterp (ext.apply Ts2r vox)).1 •
                  ![r 3 * -(r 0), r 3 * r 1, r 3 * r 2])⟩)) ∧
    (∀ t : ℚ, r = ![1, 0, 0, t] →
      (scaleColwise (negateCol0 scheme))[v]? = some ![-t, 0, 0]) := by
  have hrow : (scaleColwise (negateCol0 scheme))[v]?
      = some ![r 3 * -(r 0), r 3 * r 1, r 3 * r 2] := by
    simp only [scaleColwise, negateCol0, List.getElem?_map, hr, Option.map_some']
    congr 1
    funext i
    fin_cases i
    · simp [leftCols3]; exact mul_comm _ _
    · simp [leftCols3]; ring
    · have h2 : Fin.castSucc (2 : Fin 3) = (2 : Fin 4) := rfl
      simp [leftCols3, h2]; ring
  refine ⟨hrow, ?_, ?_⟩
  · intro obj hobj
    have hnew := run_func_inv ext data field scheme motionOpt fidxOpt nomod obj hobj
    have hPE := (new_fields ext _ _ _ _ _ _ obj hnew).1
    have hpe : obj.PE[v]? = some ![r 3 * -(r 0), r 3 * r 1, r 3 * r 2] := by
      rw [hPE]; exact hrow
    exact ⟨hpe, fun Ts2r jac voxels => voxelLoop_eq ext obj v Ts2r _ hpe jac voxels⟩
  · intro t ht
    rw [hrow, ht]
    simp

/-- Witness of `pe_sign_convention`: the table with the single row `(1, 0, 0, 5)`. -/
theorem pe_sign_convention_witness :
    (scaleColwise (negateCol0 [![1, 0, 0, 5]]))[0]? = some (![-5, 0, 0] : Vec3) :=
  (pe_sign_convention (rampExt 0) (rampImage 1 1) (rampImage 1 1) [![1, 0, 0, 5]] none none
    false 0 ![1, 0, 0, 5] rfl).2.2 5 rfl

end Resampling

end MrFieldUnwarp
